import Mathlib

/-!
Shallow embedding of the sshell repository (Go):
- commands/commands.go: command registry, lookup by exact name or unique
  name-start abbreviation, autocomplete callback, batch Exec
- sshell.go: session channel handling, pty-req / window-change payload parsing

Go strings are modelled as Lean strings (lines and candidate slices as lists of
characters, adequate for the ASCII data the program manipulates); Go byte
slices as lists of naturals below 256; nilable Go function values as Option;
a Go panic as the value none of an Option result.
-/

namespace SShell

/-- Result of running a command: the bytes written to the supplied sink, and
the returned error (none models a nil error). Mirrors the signature
`func(io.Writer, []string) error` of the Run field. -/
abbrev RunFn := List String → String × Option String

/-- Command - a table entry for registering a command (commands.go).
`run = none` models a nil Run function value, `complete = none` a nil
Complete function; a non-none `complete` holds the fixed candidate list the
provider returns. -/
structure Command where
  run : Option RunFn
  complete : Option (List String)

/-- Zero value of the Go struct Command: both function fields nil. -/
def Command.zero : Command := ⟨none, none⟩

/-- Registry - table of registered command handlers, modelled as an
association list standing for the Go map (iteration order fixed as list
order, one possible order of the unordered Go map range). -/
abbrev Registry := List (String × Command)

/-- Go strings.ToLower (character-wise lowering, as for ASCII data). -/
def goToLower (s : String) : String := String.mk (s.data.map Char.toLower)

/-- Go strings.HasPrefix full p: p is a leading substring of full. -/
def goHasPre (full p : String) : Bool := p.data.isPrefixOf full.data

/-- Loop of LookupCommand (commands.go lines 34-43): scan the registry
entries; on each name that starts with p, fail if a candidate was already
accumulated (ambiguity), else accumulate it; at the end report the
accumulated entry, found iff its Run is non-nil. -/
def lookupScan (p : String) : Registry → String → Command → String × Command × Bool
  | [], name, c => (name, c, c.run.isSome)
  | e :: rest, name, c =>
    if goHasPre e.1 p then
      if c.run.isSome then ("", Command.zero, false)
      else lookupScan p rest e.1 e.2
    else lookupScan p rest name c

/-- LookupCommand - Find a command by a leading abbreviation (commands.go
lines 29-44): lowercase the query, return an exact map hit immediately,
otherwise run the accumulation scan starting from the zero Command. -/
def lookupCommand (reg : Registry) (query : String) : String × Command × Bool :=
  match reg.find? (fun e => e.1 == goToLower query) with
  | some e => (goToLower query, e.2, true)
  | none => lookupScan (goToLower query) reg "" Command.zero

/-- RegisterCommand - Add a command (commands.go lines 24-26): map assignment
`Registry[name] = Command{run, complete}`, storing under the name exactly as
given (no case change), overwriting any previous binding of that name. -/
def registerCommand (reg : Registry) (name : String) (run : Option RunFn)
    (complete : Option (List String)) : Registry :=
  (name, Command.mk run complete) :: reg.filter (fun e => e.1 ≠ name)

/-- Keys of a registry. -/
def regKeys (reg : Registry) : List String := reg.map (·.1)

-- Sanity checks from spec section 8, with a trivial non-nil run function.
def runNop : RunFn := fun _ => ("", none)

def regRun : Registry :=
  [("run", ⟨some runNop, none⟩), ("runner", ⟨some runNop, none⟩)]

example : (lookupCommand regRun "ru").2.2 = false := by decide
example : (lookupCommand regRun "runn").1 = "runner" := by decide
example : (lookupCommand regRun "runn").2.2 = true := by decide
example : (lookupCommand regRun "run").1 = "run" := by decide
example : (lookupCommand regRun "run").2.2 = true := by decide
example : (lookupCommand regRun "RUN").1 = "run" := by decide
example : (lookupCommand regRun "x").2.2 = false := by decide

/-! Lemmas about the lookup scan. -/

theorem lookupScan_no_match (p : String) (l : Registry) (name : String) (c : Command)
    (h : ∀ e ∈ l, goHasPre e.1 p = false) :
    lookupScan p l name c = (name, c, c.run.isSome) := by
  induction l generalizing name c with
  | nil => rfl
  | cons e rest ih =>
    have he := h e (List.mem_cons_self e rest)
    simp only [lookupScan, he, Bool.false_eq_true, if_false]
    exact ih name c (fun e' h' => h e' (List.mem_cons_of_mem _ h'))

theorem lookupScan_abort (p : String) (l : Registry) (name : String) (c : Command)
    (hc : c.run.isSome = true) (h : ∃ e ∈ l, goHasPre e.1 p = true) :
    lookupScan p l name c = ("", Command.zero, false) := by
  induction l generalizing name c with
  | nil => simp at h
  | cons e rest ih =>
    cases hm : goHasPre e.1 p with
    | true => simp only [lookupScan, hm, if_true, hc]
    | false =>
      simp only [lookupScan, hm, Bool.false_eq_true, if_false]
      obtain ⟨e', he', hp'⟩ := h
      rcases List.mem_cons.mp he' with rfl | hmem
      · rw [hm] at hp'; exact absurd hp' (by simp)
      · exact ih name c hc ⟨e', hmem, hp'⟩

theorem lookupScan_unique (p : String) (l : Registry) (e : String × Command)
    (h : l.filter (fun x => goHasPre x.1 p) = [e]) :
    lookupScan p l "" Command.zero = (e.1, e.2, e.2.run.isSome) := by
  induction l with
  | nil => simp at h
  | cons a rest ih =>
    cases hm : goHasPre a.1 p with
    | false =>
      rw [List.filter_cons] at h
      simp only [hm, Bool.false_eq_true, if_false] at h
      simp only [lookupScan, hm, Bool.false_eq_true, if_false]
      exact ih h
    | true =>
      rw [List.filter_cons] at h
      simp only [hm, if_true] at h
      have h1 : a = e := (List.cons_eq_cons.mp h).1
      have h2 : rest.filter (fun x => goHasPre x.1 p) = [] := (List.cons_eq_cons.mp h).2
      subst h1
      simp only [lookupScan, hm, if_true, Command.zero, Option.isSome_none,
        Bool.false_eq_true, if_false]
      have hno : ∀ x ∈ rest, goHasPre x.1 p = false := by
        intro x hx
        by_contra hx'
        have : x ∈ rest.filter (fun y => goHasPre y.1 p) :=
          List.mem_filter.mpr ⟨hx, by simpa using hx'⟩
        rw [h2] at this
        simp at this
      exact lookupScan_no_match p rest a.1 a.2 hno

theorem lookupScan_ambiguous (p : String) (l : Registry)
    (h2 : 2 ≤ (l.filter (fun x => goHasPre x.1 p)).length)
    (hall : ∀ e ∈ l.filter (fun x => goHasPre x.1 p), e.2.run.isSome = true) :
    lookupScan p l "" Command.zero = ("", Command.zero, false) := by
  induction l with
  | nil => simp at h2
  | cons a rest ih =>
    cases hm : goHasPre a.1 p with
    | false =>
      rw [List.filter_cons] at h2 hall
      simp only [hm, Bool.false_eq_true, if_false] at h2 hall
      simp only [lookupScan, hm, Bool.false_eq_true, if_false]
      exact ih h2 hall
    | true =>
      rw [List.filter_cons] at h2 hall
      simp only [hm, if_true] at h2 hall
      simp only [lookupScan, hm, if_true, Command.zero, Option.isSome_none,
        Bool.false_eq_true, if_false]
      have hane : a.2.run.isSome = true :=
        hall a (List.mem_cons_self a _)
      have hlen : 0 < (rest.filter (fun x => goHasPre x.1 p)).length := by
        simp only [List.length_cons] at h2
        omega
      obtain ⟨x, hx⟩ := List.exists_mem_of_length_pos hlen
      have hx' := List.mem_filter.mp hx
      exact lookupScan_abort p rest a.1 a.2 hane ⟨x, hx'.1, by simpa using hx'.2⟩

/-- Characters of a leading substring of a character-wise lowercase string are
themselves lowercase. -/
theorem goToLower_eq_self_of_pre (k p : String) (hk : goToLower k = k)
    (hp : goHasPre k p = true) : goToLower p = p := by
  obtain ⟨t, ht⟩ := List.isPrefixOf_iff_prefix.mp hp
  have hkdata : k.data.map Char.toLower = k.data := congrArg String.data hk
  rw [← ht, List.map_append] at hkdata
  have hlen : (p.data.map Char.toLower).length = p.data.length := List.length_map _ _
  have heq := (List.append_inj hkdata hlen).1
  show String.mk (p.data.map Char.toLower) = p
  rw [heq]

/-- Registry exact search misses when the query is not a key. -/
theorem regFind?_eq_none (reg : Registry) (p : String) (h : ∀ e ∈ reg, e.1 ≠ p) :
    reg.find? (fun e => e.1 == p) = none :=
  List.find?_eq_none.mpr (fun e he => by simpa using h e he)

/-- Every string is a goHasPre-prefix of itself. -/
theorem goHasPre_refl (s : String) : goHasPre s s = true :=
  List.isPrefixOf_iff_prefix.mpr (List.prefix_refl _)

/-! Claim C1: exact and unique-abbreviation lookup. -/

/-- C1 (counterexample to the claim as stated): in the registry holding only
name "A" (a non-lowercase key, as registration permits), lookup of the
registered name "A" itself has found = false, not true; and in the registry
holding only name "ab" with a nil Run function, lookup of "a" — a non-empty
strict prefix that is not a key and matches exactly the one name "ab" — also
has found = false, not true. -/
theorem C1_lookup_counterexample :
    ((("A", (⟨some runNop, none⟩ : Command)) ∈
        ([("A", (⟨some runNop, none⟩ : Command))] : Registry)) ∧
      (lookupCommand [("A", (⟨some runNop, none⟩ : Command))] "A").2.2 = false) ∧
    (("a" : String) ≠ "" ∧
      (∀ e ∈ ([("ab", Command.zero)] : Registry), e.1 ≠ "a") ∧
      ([("ab", Command.zero)] : Registry).filter (fun x => goHasPre x.1 "a") =
        [("ab", Command.zero)] ∧
      (lookupCommand [("ab", Command.zero)] "a").2.2 = false) := by
  exact ⟨⟨List.mem_cons_self _ _, by decide⟩, ⟨by decide, by decide, rfl, by decide⟩⟩

/-- C1 (amended): over a registry whose keys are all lowercase, lookup of a
registered name n returns (n, its command, found = true) — exact key match
wins even when other names start with n — and lookup of a non-empty strict
prefix p that is not a key and matches exactly one registered name, provided
that name's command has a non-nil Run function, returns that name, its
command, and found = true. -/
theorem C1_lookup_exact_and_unique (reg : Registry)
    (hkeys : ∀ e ∈ reg, goToLower e.1 = e.1) :
    (∀ n c, reg.find? (fun e => e.1 == n) = some (n, c) →
      lookupCommand reg n = (n, c, true)) ∧
    (∀ p e, p ≠ "" → (∀ e' ∈ reg, e'.1 ≠ p) →
      reg.filter (fun x => goHasPre x.1 p) = [e] →
      e.2.run.isSome = true →
      lookupCommand reg p = (e.1, e.2, true)) := by
  constructor
  · intro n c hfind
    have hmem := List.mem_of_find?_eq_some hfind
    have hn : goToLower n = n := hkeys (n, c) hmem
    simp only [lookupCommand, hn, hfind]
  · intro p e _ hnokey hfilter hrun
    have hemem : e ∈ reg.filter (fun x => goHasPre x.1 p) := by
      rw [hfilter]; exact List.mem_cons_self _ _
    have he := List.mem_filter.mp hemem
    have hp : goToLower p = p :=
      goToLower_eq_self_of_pre e.1 p (hkeys e he.1) (by simpa using he.2)
    have hfind := regFind?_eq_none reg p hnokey
    simp only [lookupCommand, hp, hfind]
    rw [lookupScan_unique p reg e hfilter, hrun]

/-- C1 witness: concrete two-command registry; exact lookup of "run" and
unique-abbreviation lookup of "runn" both succeed. -/
theorem C1_lookup_witness :
    lookupCommand regRun "run" = ("run", ⟨some runNop, none⟩, true) ∧
    lookupCommand regRun "runn" = ("runner", ⟨some runNop, none⟩, true) := by
  have h := C1_lookup_exact_and_unique regRun (by decide)
  exact ⟨h.1 "run" ⟨some runNop, none⟩ rfl,
    h.2 "runn" ("runner", ⟨some runNop, none⟩) (by decide) (by decide) rfl rfl⟩

/-! Claim C2: ambiguous and empty abbreviation lookup. -/

/-- C2 (counterexample to the claim as stated): in the registry holding names
"aa" (nil Run) and "ab" (non-nil Run), both of which start with the non-key
prefix "a", lookup of "a" returns found = true with name "ab" — the scan
overwrites the first accumulated candidate because its Run is nil — instead
of the failure the claim demands. -/
theorem C2_ambiguous_counterexample :
    (([("aa", Command.zero), ("ab", (⟨some runNop, none⟩ : Command))] :
        Registry).filter (fun x => goHasPre x.1 "a")).length = 2 ∧
    (∀ e ∈ ([("aa", Command.zero), ("ab", (⟨some runNop, none⟩ : Command))] :
        Registry), e.1 ≠ "a") ∧
    (lookupCommand [("aa", Command.zero), ("ab", (⟨some runNop, none⟩ : Command))]
        "a").2.2 = true ∧
    (lookupCommand [("aa", Command.zero), ("ab", (⟨some runNop, none⟩ : Command))]
        "a").1 = "ab" := by
  exact ⟨by decide, by decide, by decide, by decide⟩

/-- C2 (amended): over a registry with lowercase keys, if two or more
registered names start with the non-empty non-key prefix p and every matching
name's command has a non-nil Run function, lookup of p fails with resolved
name empty, the zero Command and found = false; lookup with zero names
matching the lowercased query fails the same way unconditionally. -/
theorem C2_ambiguous_and_empty_fail (reg : Registry)
    (hkeys : ∀ e ∈ reg, goToLower e.1 = e.1) (p : String) :
    ((∀ e' ∈ reg, e'.1 ≠ p) →
      2 ≤ (reg.filter (fun x => goHasPre x.1 p)).length →
      (∀ e ∈ reg.filter (fun x => goHasPre x.1 p), e.2.run.isSome = true) →
      lookupCommand reg p = ("", Command.zero, false)) ∧
    (reg.filter (fun x => goHasPre x.1 (goToLower p)) = [] →
      lookupCommand reg p = ("", Command.zero, false)) := by
  constructor
  · intro hnokey h2 hall
    have hlen : 0 < (reg.filter (fun x => goHasPre x.1 p)).length := by omega
    obtain ⟨e, he⟩ := List.exists_mem_of_length_pos hlen
    have he' := List.mem_filter.mp he
    have hp : goToLower p = p :=
      goToLower_eq_self_of_pre e.1 p (hkeys e he'.1) (by simpa using he'.2)
    have hfind := regFind?_eq_none reg p hnokey
    simp only [lookupCommand, hp, hfind]
    exact lookupScan_ambiguous p reg h2 hall
  · intro hempty
    have hnone : ∀ e ∈ reg, goHasPre e.1 (goToLower p) = false := by
      intro e he
      by_contra hx
      have : e ∈ reg.filter (fun x => goHasPre x.1 (goToLower p)) :=
        List.mem_filter.mpr ⟨he, by simpa using hx⟩
      rw [hempty] at this
      simp at this
    have hfind : reg.find? (fun e => e.1 == goToLower p) = none := by
      apply regFind?_eq_none
      intro e he heq
      have := hnone e he
      rw [heq] at this
      rw [goHasPre_refl] at this
      exact absurd this (by simp)
    simp only [lookupCommand, hfind]
    rw [lookupScan_no_match (goToLower p) reg "" Command.zero hnone]
    rfl

/-- C2 witness: in the run/runner registry, lookup of the shared prefix "ru"
is ambiguous and fails with the empty name and zero Command, and lookup of
the unmatched "zz" fails the same way. -/
theorem C2_ambiguous_witness :
    lookupCommand regRun "ru" = ("", Command.zero, false) ∧
    lookupCommand regRun "zz" = ("", Command.zero, false) := by
  exact ⟨(C2_ambiguous_and_empty_fail regRun (by decide) "ru").1 (by decide)
      (by decide) (by decide),
    (C2_ambiguous_and_empty_fail regRun (by decide) "zz").2 rfl⟩

/-! Claim C8: unique abbreviation of a nil-Run command fails. -/

/-- C8: over a registry with lowercase keys, lookup of a non-empty strict
prefix p that is not a key and matches exactly one registered name whose
command has a nil Run function returns found = false — the final found result
is the accumulated Run being non-nil, so unique resolution silently fails. -/
theorem C8_nil_run_unique_fails (reg : Registry)
    (hkeys : ∀ e ∈ reg, goToLower e.1 = e.1) (p : String)
    (e : String × Command) (_hne : p ≠ "") (hnokey : ∀ e' ∈ reg, e'.1 ≠ p)
    (hfilter : reg.filter (fun x => goHasPre x.1 p) = [e])
    (hnil : e.2.run = none) :
    lookupCommand reg p = (e.1, e.2, false) := by
  have hemem : e ∈ reg.filter (fun x => goHasPre x.1 p) := by
    rw [hfilter]; exact List.mem_cons_self _ _
  have he := List.mem_filter.mp hemem
  have hp : goToLower p = p :=
    goToLower_eq_self_of_pre e.1 p (hkeys e he.1) (by simpa using he.2)
  have hfind := regFind?_eq_none reg p hnokey
  simp only [lookupCommand, hp, hfind]
  rw [lookupScan_unique p reg e hfilter, hnil]
  rfl

/-- C8 witness: registry holding only "ab" with a nil Run; lookup of the
uniquely matching prefix "a" returns the entry with found = false. -/
theorem C8_nil_run_witness :
    lookupCommand [("ab", Command.zero)] "a" = ("ab", Command.zero, false) := by
  exact C8_nil_run_unique_fails [("ab", Command.zero)] (by decide) "a"
    ("ab", Command.zero) (by decide) (by decide) rfl rfl

/-! Claim C3: registration and key case. -/

/-- C3 (counterexample to the claim as stated): registering name "TEST" into
the empty registry stores the entry under the key "TEST" exactly as given —
not under lowercase "test" as the claim demands — so the resulting registry
has a non-lowercase key and an exact search for "test" misses. -/
theorem C3_register_counterexample :
    regKeys (registerCommand [] "TEST" (some runNop) none) = ["TEST"] ∧
    goToLower "TEST" = "test" ∧
    (registerCommand [] "TEST" (some runNop) none).find?
      (fun e => e.1 == "test") = none := by
  exact ⟨by decide, by decide, rfl⟩

/-- C3 (amended): register(name, run, complete) stores or overwrites the
registry entry under name exactly as passed, with no case change; every key
of the updated registry is the new name or a previous key, so keys are all
lowercase only when the registered names themselves are lowercase. -/
theorem C3_register_stores_verbatim (reg : Registry) (name : String)
    (run : Option RunFn) (complete : Option (List String)) :
    (registerCommand reg name run complete).find? (fun e => e.1 == name) =
      some (name, Command.mk run complete) ∧
    (∀ k ∈ regKeys (registerCommand reg name run complete),
      k = name ∨ k ∈ regKeys reg) ∧
    ((∀ k ∈ regKeys reg, goToLower k = k) → goToLower name = name →
      ∀ k ∈ regKeys (registerCommand reg name run complete), goToLower k = k) := by
  refine ⟨?_, ?_, ?_⟩
  · simp [registerCommand, List.find?_cons_of_pos]
  · intro k hk
    simp only [registerCommand, regKeys, List.map_cons, List.mem_cons] at hk
    rcases hk with rfl | hk
    · exact Or.inl rfl
    · obtain ⟨e, he, rfl⟩ := List.mem_map.mp hk
      exact Or.inr (List.mem_map_of_mem _ (List.mem_of_mem_filter he))
  · intro hlow hname k hk
    simp only [registerCommand, regKeys, List.map_cons, List.mem_cons] at hk
    rcases hk with rfl | hk
    · exact hname
    · obtain ⟨e, he, rfl⟩ := List.mem_map.mp hk
      exact hlow e.1 (List.mem_map_of_mem _ (List.mem_of_mem_filter he))

/-- C3 witness: registering lowercase "test" stores it under "test" and the
one-key registry has only lowercase keys. -/
theorem C3_register_witness :
    (registerCommand [] "test" (some runNop) none).find?
      (fun e => e.1 == "test") = some ("test", Command.mk (some runNop) none) ∧
    (∀ k ∈ regKeys (registerCommand [] "test" (some runNop) none),
      goToLower k = k) := by
  exact ⟨(C3_register_stores_verbatim [] "test" (some runNop) none).1,
    (C3_register_stores_verbatim [] "test" (some runNop) none).2.2
      (by decide) (by decide)⟩

/-! Byte-level payload handling (sshell.go). Go byte slices are lists of
naturals below 256; a Go runtime panic (index or slice out of range, or a
short slice passed to binary.BigEndian.Uint32) is the value none. -/

/-- Go indexing b[i]: the element, or none where Go panics. -/
def goIndex (b : List Nat) (i : Nat) : Option Nat := b.get? i

/-- Go slicing b[i:]: defined for i up to the length, else a panic. -/
def goSliceFrom (b : List Nat) (i : Nat) : Option (List Nat) :=
  if i ≤ b.length then some (b.drop i) else none

/-- Go binary.BigEndian.Uint32: the big-endian word of the first four bytes,
or a panic on a shorter slice. -/
def binaryBigEndianUint32 (b : List Nat) : Option Nat :=
  match b with
  | b0 :: b1 :: b2 :: b3 :: _ => some (((b0 * 256 + b1) * 256 + b2) * 256 + b3)
  | _ => none

/-- parseDims (sshell.go lines 262-266): w from the slice start, h from
offset 4, both 4-byte big-endian. -/
def parseDims (b : List Nat) : Option (Nat × Nat) :=
  match binaryBigEndianUint32 b with
  | none => none
  | some w =>
    match goSliceFrom b 4 with
    | none => none
    | some rest =>
      match binaryBigEndianUint32 rest with
      | none => none
      | some h => some (w, h)

/-- Handler of a buffered pty-req (sshell.go lines 148-152): termLen is the
single payload byte at index 3; the dimensions are parsed from the slice
starting at termLen+4 computed in Go byte arithmetic, so modulo 256; the
request is then acknowledged with success (the true flag). -/
def handlePtyReq (payload : List Nat) : Option ((Nat × Nat) × Bool) :=
  match goIndex payload 3 with
  | none => none
  | some termLen =>
    match goSliceFrom payload ((termLen + 4) % 256) with
    | none => none
    | some rest =>
      match parseDims rest with
      | none => none
      | some wh => some (wh, true)

theorem binaryBigEndianUint32_length (b : List Nat) (x : Nat)
    (h : binaryBigEndianUint32 b = some x) : 4 ≤ b.length := by
  rcases b with _ | ⟨b0, _ | ⟨b1, _ | ⟨b2, _ | ⟨b3, rest⟩⟩⟩⟩
  · simp [binaryBigEndianUint32] at h
  · simp [binaryBigEndianUint32] at h
  · simp [binaryBigEndianUint32] at h
  · simp [binaryBigEndianUint32] at h
  · simp only [List.length_cons]
    omega

theorem parseDims_length (b : List Nat) (wh : Nat × Nat)
    (h : parseDims b = some wh) : 8 ≤ b.length := by
  cases hw : binaryBigEndianUint32 b with
  | none => simp [parseDims, hw] at h
  | some w =>
    cases hs : goSliceFrom b 4 with
    | none => simp [parseDims, hw, hs] at h
    | some rest =>
      cases hh : binaryBigEndianUint32 rest with
      | none => simp [parseDims, hw, hs, hh] at h
      | some hgt =>
        have h4 := binaryBigEndianUint32_length b w hw
        have hrest : rest = b.drop 4 := by
          unfold goSliceFrom at hs
          rw [if_pos (by omega)] at hs
          exact (Option.some.injEq _ _ ▸ hs).symm
        have h8 := binaryBigEndianUint32_length rest hgt hh
        rw [hrest, List.length_drop] at h8
        omega

/-! Claim C4: pty-req dimension offsets. -/

/-- Payload of a pty-req whose 4-byte big-endian terminal-name length field
holds 252: the name bytes, then width 80 and height 24. -/
def payloadC4 : List Nat :=
  [0, 0, 0, 252] ++ List.replicate 252 0 ++ [0, 0, 0, 80, 0, 0, 0, 24]

set_option maxRecDepth 4000 in
/-- C4 (counterexample to the claim as stated): on a payload whose leading
4-byte length field holds L = 252, the two big-endian words at offsets 4+L
and 8+L are 80 and 24, but the handler applies width 252 and height 0 —
termLen+4 wraps to 0 in Go byte arithmetic, so the dimensions are read from
the start of the payload instead of offset 4+L. -/
theorem C4_pty_req_counterexample :
    binaryBigEndianUint32 payloadC4 = some 252 ∧
    parseDims (payloadC4.drop (4 + 252)) = some (80, 24) ∧
    handlePtyReq payloadC4 = some ((252, 0), true) := by
  exact ⟨by decide, by decide, by decide⟩

/-- C4 (amended): for every buffered pty-req whose leading 4-byte big-endian
terminal-name-length field holds a value L with L + 4 < 256, the width and
height applied are the two 4-byte big-endian words at offsets 4+L and 8+L of
the payload, and the request is acknowledged with success. -/
theorem C4_pty_req_dims (payload : List Nat) (L : Nat)
    (hL : binaryBigEndianUint32 payload = some L) (hsmall : L + 4 < 256)
    (w h : Nat) (hdims : parseDims (payload.drop (4 + L)) = some (w, h)) :
    handlePtyReq payload = some ((w, h), true) := by
  rcases payload with _ | ⟨b0, _ | ⟨b1, _ | ⟨b2, _ | ⟨b3, rest⟩⟩⟩⟩
  · simp [binaryBigEndianUint32] at hL
  · simp [binaryBigEndianUint32] at hL
  · simp [binaryBigEndianUint32] at hL
  · simp [binaryBigEndianUint32] at hL
  have hval : ((b0 * 256 + b1) * 256 + b2) * 256 + b3 = L := by
    simpa [binaryBigEndianUint32] using hL
  have hb0 : b0 = 0 := by omega
  have hb1 : b1 = 0 := by omega
  have hb2 : b2 = 0 := by omega
  have hb3 : b3 = L := by omega
  subst hb0 hb1 hb2 hb3
  have hlen := parseDims_length _ _ hdims
  rw [List.length_drop] at hlen
  simp only [List.length_cons] at hlen
  have hidx : goIndex (0 :: 0 :: 0 :: b3 :: rest) 3 = some b3 := rfl
  have hmod : (b3 + 4) % 256 = 4 + b3 := by omega
  have hslice : goSliceFrom (0 :: 0 :: 0 :: b3 :: rest) (4 + b3) =
      some ((0 :: 0 :: 0 :: b3 :: rest).drop (4 + b3)) := by
    unfold goSliceFrom
    rw [if_pos (by simp only [List.length_cons]; omega)]
  simp only [handlePtyReq, hidx, hmod, hslice, hdims]

/-- Payload of a well-formed pty-req: terminal name of length 2 ("xy"), then
width 100 and height 40. -/
def payloadC4w : List Nat := [0, 0, 0, 2, 120, 121, 0, 0, 0, 100, 0, 0, 0, 40]

/-- C4 witness: terminal name of length 2, width 100, height 40 at offsets 6
and 10; the handler applies (100, 40) and acknowledges. -/
theorem C4_pty_req_witness :
    handlePtyReq payloadC4w = some ((100, 40), true) := by
  exact C4_pty_req_dims payloadC4w 2 (by decide) (by decide) 100 40 (by decide)

/-! Claim C9: short subsystem payload. -/

/-- Bytes of the subsystem name "sftp". -/
def sftpBytes : List Nat := [115, 102, 116, 112]

/-- Handler of a "subsystem" request (sshell.go lines 117-125): the subsystem
name is the payload from offset 4 on — Go slicing panics (none) when the
payload is shorter than 4 bytes, since payload slices carry no spare
capacity; the name "sftp" is dispatched with a success acknowledgment
(some true), any other name is silently ignored (some false). -/
def handleSubsystemReq (payload : List Nat) : Option Bool :=
  match goSliceFrom payload 4 with
  | none => none
  | some nameBytes => some (nameBytes == sftpBytes)

/-- C9: every subsystem request with a payload shorter than 4 bytes makes the
evaluation of req.Payload from offset 4 out of range, so the handler panics
(no defined value) instead of silently ignoring the request. -/
theorem C9_short_subsystem_panics (payload : List Nat)
    (hshort : payload.length < 4) :
    handleSubsystemReq payload = none ∧ ∀ b, handleSubsystemReq payload ≠ some b := by
  have h : goSliceFrom payload 4 = none := by
    unfold goSliceFrom
    rw [if_neg (by omega)]
  constructor
  · simp only [handleSubsystemReq, h]
  · intro b
    simp only [handleSubsystemReq, h]
    exact fun hc => Option.noConfusion hc

/-- C9 witness: the three-byte payload [0, 0, 3] makes the handler panic. -/
theorem C9_short_subsystem_witness :
    handleSubsystemReq [0, 0, 3] = none :=
  (C9_short_subsystem_panics [0, 0, 3] (by decide)).1

/-! Autocomplete engine (commands.go lines 52-93, sshell.go lines 202-243).
Lines are lists of characters (Go indexes bytes; the data is ASCII). Lines
delivered by the terminal line editor contain no newline, so the Go regexp
dot, which excludes newline, is modelled as matching every character. -/

/-- Word character of the Go regexp class backslash-w: [0-9A-Za-z_]. -/
def isWordChar (c : Char) : Bool := c.isAlpha || c.isDigit || c == '_'

/-- Go strings.EqualFold on character lists (ASCII case folding). -/
def goEqualFold (a b : List Char) : Bool :=
  a.map Char.toLower == b.map Char.toLower

/-- Go regexp FindStringSubmatch with the lastWord pattern dot-plus,
non-word, captured word-plus, end anchor: the submatch exists when the line
ends in a non-empty run of word characters and at least two characters
precede that run — the one directly before it being non-word automatically,
since the run is maximal; the capture is that trailing run. -/
def lastWordMatch (line : List Char) : Option (List Char) :=
  let run := (line.reverse.takeWhile isWordChar).reverse
  if run.length ≠ 0 ∧ run.length + 2 ≤ line.length then some run else none

/-- Candidate filter of the autocomplete callback: candidates at least as
long as soFar whose leading soFar.length characters equal soFar up to case. -/
def filterCands (cands : List String) (soFar : List Char) : List (List Char) :=
  (cands.map String.data).filter (fun cand =>
    decide (soFar.length ≤ cand.length) && goEqualFold (cand.take soFar.length) soFar)

/-- AutoCompleteCallback (commands.go lines 52-93): no-op unless the key is
tab with the cursor at end of line; a line without a space is completed as a
command name via lookup; otherwise the first token is resolved and must
offer a completion provider; a line ending in a space, or one where the
lastWord pattern fails, is returned unchanged as handled; otherwise the
provider candidates are filtered against the trailing token and zero, one or
many survivors decide the outcome. -/
def autoCompleteCallback (reg : Registry) (line : List Char) (pos : Nat)
    (key : Char) : List Char × Nat × Bool :=
  if key ≠ '\t' ∨ pos ≠ line.length then ([], 0, false)
  else if line.contains ' ' = false then
    let r := lookupCommand reg (String.mk line)
    if r.2.2 then (r.1.data, r.1.data.length, true) else ([], 0, false)
  else
    let r := lookupCommand reg (String.mk (line.takeWhile (fun c => c ≠ ' ')))
    if r.2.2 = false ∨ r.2.1.complete = none then ([], 0, false)
    else if line.reverse.head? = some ' ' then (line, pos, true)
    else
      match lastWordMatch line with
      | none => (line, line.length, true)
      | some soFar =>
        match filterCands (r.2.1.complete.getD []) soFar with
        | [] => ([], 0, false)
        | [m] => (line.take (line.length - soFar.length) ++ m,
            (line.take (line.length - soFar.length) ++ m).length, true)
        | _ :: _ :: _ => (line, pos, true)

/-- Whitespace is never a word character. -/
theorem isWordChar_eq_false_of_whitespace (c : Char) (h : c.isWhitespace = true) :
    isWordChar c = false := by
  have : ((c = ' ' ∨ c = '\t') ∨ c = '\r') ∨ c = '\n' := by
    simpa [Char.isWhitespace] using h
  rcases this with ((rfl | rfl) | rfl) | rfl <;> decide

/-- Registry of the spec section 8 autocomplete example: command "get" with
candidate list ["alpha", "alphabet", "beta"]. -/
def regGet : Registry :=
  [("get", ⟨some runNop, some ["alpha", "alphabet", "beta"]⟩)]

/-! Claim C7: line ending in whitespace. -/

/-- C7: when tab is hit with the cursor at end of line, the line contains a
space, its first token resolves to a command offering a completion provider,
and the line ends in a whitespace character, the callback returns the line
unchanged, the cursor position unchanged, and handled = true. -/
theorem C7_trailing_whitespace_handled (reg : Registry) (line : List Char)
    (nm : String) (c : Command) (cands : List String) (cw : Char)
    (hsp : line.contains ' ' = true)
    (hlk : lookupCommand reg (String.mk (line.takeWhile (fun ch => ch ≠ ' '))) =
      (nm, c, true))
    (hcomp : c.complete = some cands)
    (hlast : line.reverse.head? = some cw) (hws : cw.isWhitespace = true) :
    autoCompleteCallback reg line line.length '\t' = (line, line.length, true) := by
  have hr2 : ¬ ((lookupCommand reg
        (String.mk (line.takeWhile (fun ch => ch ≠ ' ')))).2.2 = false ∨
      (lookupCommand reg
        (String.mk (line.takeWhile (fun ch => ch ≠ ' ')))).2.1.complete = none) := by
    rw [hlk]
    simp [hcomp]
  by_cases hcw : cw = ' '
  · subst hcw
    simp only [autoCompleteCallback]
    rw [if_neg (by simp), if_neg (by rw [hsp]; simp), if_neg hr2, if_pos hlast]
  · have hlast' : ¬ (line.reverse.head? = some ' ') := by
      intro hcon
      exact hcw (Option.some.inj (hlast.symm.trans hcon))
    have hrun : line.reverse.takeWhile isWordChar = [] := by
      cases hrev : line.reverse with
      | nil => rfl
      | cons a t =>
        rw [hrev] at hlast
        have ha : a = cw := Option.some.inj (by simpa using hlast)
        subst ha
        rw [List.takeWhile_cons,
          isWordChar_eq_false_of_whitespace a hws]
        rfl
    have hm : lastWordMatch line = none := by
      unfold lastWordMatch
      rw [hrun]
      simp
    simp only [autoCompleteCallback]
    rw [if_neg (by simp), if_neg (by rw [hsp]; simp), if_neg hr2, if_neg hlast', hm]

/-- C7 witness: line "get " (provider present, trailing space) is returned
unchanged with the cursor still at 4 and handled = true. -/
theorem C7_trailing_whitespace_witness :
    autoCompleteCallback regGet "get ".data 4 '\t' = ("get ".data, 4, true) := by
  exact C7_trailing_whitespace_handled regGet "get ".data "get"
    ⟨some runNop, some ["alpha", "alphabet", "beta"]⟩
    ["alpha", "alphabet", "beta"] ' ' (by decide) rfl rfl (by decide) (by decide)

/-! Claim C5: trailing-token completion against the provider candidates. -/

/-- C5: when tab is hit at end of line, the line contains a space, its first
token resolves to a command with a completion provider, the line does not end
in a space and the trailing partial token soFar is extracted, then the
candidates are filtered by case-insensitive equality of their leading
soFar-length slice with soFar, and: zero survivors signal not-handled with no
change; exactly one survivor replaces the trailing soFar with the full
candidate, the cursor moving to the end of the rewritten line, handled; two
or more survivors signal handled with the line and cursor unchanged. -/
theorem C5_argument_completion (reg : Registry) (line : List Char)
    (nm : String) (c : Command) (cands : List String) (soFar : List Char)
    (hsp : line.contains ' ' = true)
    (hlk : lookupCommand reg (String.mk (line.takeWhile (fun ch => ch ≠ ' '))) =
      (nm, c, true))
    (hcomp : c.complete = some cands)
    (hnos : ¬ (line.reverse.head? = some ' '))
    (hm : lastWordMatch line = some soFar) :
    (filterCands cands soFar = [] →
      autoCompleteCallback reg line line.length '\t' = ([], 0, false)) ∧
    (∀ m, filterCands cands soFar = [m] →
      autoCompleteCallback reg line line.length '\t' =
        (line.take (line.length - soFar.length) ++ m,
          (line.take (line.length - soFar.length) ++ m).length, true)) ∧
    (2 ≤ (filterCands cands soFar).length →
      autoCompleteCallback reg line line.length '\t' = (line, line.length, true)) := by
  have hr2 : ¬ ((lookupCommand reg
        (String.mk (line.takeWhile (fun ch => ch ≠ ' ')))).2.2 = false ∨
      (lookupCommand reg
        (String.mk (line.takeWhile (fun ch => ch ≠ ' ')))).2.1.complete = none) := by
    rw [hlk]
    simp [hcomp]
  have hbase : autoCompleteCallback reg line line.length '\t' =
      (match filterCands cands soFar with
        | [] => ([], 0, false)
        | [m] => (line.take (line.length - soFar.length) ++ m,
            (line.take (line.length - soFar.length) ++ m).length, true)
        | _ :: _ :: _ => (line, line.length, true)) := by
    simp only [autoCompleteCallback]
    rw [if_neg (by simp), if_neg (by rw [hsp]; simp), if_neg hr2, if_neg hnos, hm,
      hlk]
    simp [hcomp]
  refine ⟨?_, ?_, ?_⟩
  · intro hfc
    rw [hbase, hfc]
  · intro m hfc
    rw [hbase, hfc]
  · intro h2
    rcases hfc : filterCands cands soFar with _ | ⟨a, _ | ⟨b, t⟩⟩
    · rw [hfc] at h2; simp at h2
    · rw [hfc] at h2; simp at h2
    · rw [hbase, hfc]

/-- C5 witness: line "get be" with candidates alpha, alphabet, beta; the one
survivor beta replaces the trailing "be", the line becomes "get beta" with
the cursor at 8 and handled = true. -/
theorem C5_argument_completion_witness :
    autoCompleteCallback regGet "get be".data 6 '\t' = ("get beta".data, 8, true) := by
  have h := (C5_argument_completion regGet "get be".data "get"
    ⟨some runNop, some ["alpha", "alphabet", "beta"]⟩
    ["alpha", "alphabet", "beta"] "be".data (by decide) rfl rfl (by decide)
    (by decide)).2.1 "beta".data (by decide)
  exact h.trans (by decide)

/-! Batch execution (commands.go lines 96-112). The external go-shellwords
tokenizer is an external collaborator, passed in as a function returning
either a parse error or the token list. Exec itself is deterministic given
that function; a call of a nil Run function value is the Go panic, none. -/

/-- Exec - execute a command line in the interpreter (commands.go lines
96-112): parse errors are returned as both output string and error; an empty
token list yields empty output with a nil error; a resolved command runs
against a fresh buffer whose contents become the output, its own error being
dropped; an unresolved command yields the message
"Unknown command: " plus the first token and a newline, as output and as the
error text. -/
def Exec (parse : String → Except String (List String)) (reg : Registry)
    (args : String) : Option (String × Option String) :=
  match parse args with
  | Except.error e => some (e, some e)
  | Except.ok [] => some ("", none)
  | Except.ok (cmd :: argv) =>
    let r := lookupCommand reg cmd
    if r.2.2 then
      match r.2.1.run with
      | some f => some ((f argv).1, none)
      | none => none
    else
      some ("Unknown command: " ++ cmd ++ "\n",
        some ("Unknown command: " ++ cmd ++ "\n"))

/-! Claim C6: Exec output and error discipline. -/

/-- C6: whenever Exec returns a non-nil error, the input either failed to
parse (and the error is the parse error, duplicated as the output) or its
first token failed to resolve (and the error text equals the output
"Unknown command: " plus the token and a newline); a command that resolves
to a non-nil Run function returns the output it wrote with a nil error, its
own returned error never surfacing; and an unresolved first token always
produces exactly that unknown-command output and matching error text. -/
theorem C6_exec_error_discipline (parse : String → Except String (List String))
    (reg : Registry) :
    (∀ args out etxt, Exec parse reg args = some (out, some etxt) →
      (∃ e, parse args = Except.error e ∧ out = e ∧ etxt = e) ∨
      (∃ cmd argv, parse args = Except.ok (cmd :: argv) ∧
        (lookupCommand reg cmd).2.2 = false ∧
        out = "Unknown command: " ++ cmd ++ "\n" ∧ etxt = out)) ∧
    (∀ args cmd argv f, parse args = Except.ok (cmd :: argv) →
      (lookupCommand reg cmd).2.2 = true →
      ((lookupCommand reg cmd).2.1).run = some f →
      Exec parse reg args = some ((f argv).1, none)) ∧
    (∀ args cmd argv, parse args = Except.ok (cmd :: argv) →
      (lookupCommand reg cmd).2.2 = false →
      Exec parse reg args =
        some ("Unknown command: " ++ cmd ++ "\n",
          some ("Unknown command: " ++ cmd ++ "\n"))) := by
  refine ⟨?_, ?_, ?_⟩
  · intro args out etxt h
    cases hp : parse args with
    | error e =>
      simp only [Exec, hp] at h
      have h' := Option.some.inj h
      have h1 := congrArg Prod.fst h'
      have h2 := congrArg Prod.snd h'
      exact Or.inl ⟨e, rfl, h1.symm, (Option.some.inj h2).symm⟩
    | ok l =>
      cases l with
      | nil => simp [Exec, hp] at h
      | cons cmd argv =>
        by_cases hr : (lookupCommand reg cmd).2.2 = true
        · simp only [Exec, hp, hr, if_true] at h
          cases hrun : (lookupCommand reg cmd).2.1.run with
          | none => rw [hrun] at h; exact absurd h (by simp)
          | some f => rw [hrun] at h; simp at h
        · simp only [Exec, hp, hr, if_false] at h
          have h' := Option.some.inj h
          have h1 := congrArg Prod.fst h'
          have h2 := congrArg Prod.snd h'
          exact Or.inr ⟨cmd, argv, rfl, by simpa using hr, h1.symm,
            (Option.some.inj h2).symm.trans h1⟩
  · intro args cmd argv f hp hr hrun
    simp only [Exec, hp, hr, if_true, hrun]
  · intro args cmd argv hp hr
    simp only [Exec, hp, hr, Bool.false_eq_true, if_false]

/-- Fixed tokenizer outcome used by the Exec witnesses. -/
def parseBogus : String → Except String (List String) :=
  fun _ => Except.ok ["bogus"]

/-- C6 witness: input "bogus" against the run/runner registry returns the
output "Unknown command: bogus" plus newline and a non-nil error with the
same text. -/
theorem C6_exec_witness :
    Exec parseBogus regRun "bogus" =
      some ("Unknown command: bogus\n", some "Unknown command: bogus\n") := by
  have h := (C6_exec_error_discipline parseBogus regRun).2.2 "bogus" "bogus" []
    rfl (by decide)
  exact h.trans (by decide)

/-! Claim C10: Exec on empty token lists. -/

/-- C10: for every input whose shell-word parse yields zero tokens, Exec
returns the empty output and a nil error, uniformly in the registry — no
lookup or command invocation influences the result. -/
theorem C10_exec_empty (parse : String → Except String (List String))
    (reg : Registry) (args : String) (hp : parse args = Except.ok []) :
    Exec parse reg args = some ("", none) := by
  simp only [Exec, hp]

/-- Fixed tokenizer outcome of whitespace-only input. -/
def parseEmpty : String → Except String (List String) :=
  fun _ => Except.ok []

/-- C10 witness: whitespace-only input returns empty output and a nil error. -/
theorem C10_exec_empty_witness :
    Exec parseEmpty regRun "   " = some ("", none) := by
  exact C10_exec_empty parseEmpty regRun "   " rfl

end SShell
